import Mathlib

/-!
Verification development for the glassnode-api bulk pipeline.

The embedding covers the pagination stitcher (merge_bulk_data and the
paginated bulk fetch loop of the client) and the tabular reshaper
(flatten_bulk_response, the three pivot layouts of
structure_bulk_dataframe, convert_bulk_to_dataframe, and the
single-series converter dataframe_from_json).  Python dictionaries are
embedded as insertion-ordered association lists, machine integers as Int,
numeric values as Rat, fallible code as Except, and the HTTP transport as
an oracle indexed by request ordinal and the window parameters it is
called with.  The while loop of the paginator is embedded with explicit
fuel; every theorem about it supplies enough fuel for the run it studies.
-/

namespace Glassnode

/-- Pagination direction: forward when a since bound is provided to the
fetch, backward otherwise. -/
inductive PagDir where
  | forward
  | backward
deriving DecidableEq, Repr

/-- One series record inside a bulk group: the privileged tag a, the
remaining non-value tags as key/value pairs (values already stringified,
as the source stringifies every identifier), and the numeric value v,
embedded as Int since every input studied here carries integral values. -/
structure SRec where
  a : String
  tags : List (String × String)
  v : Int
deriving DecidableEq, Repr

/-- One BulkEntry: a TimePoint t paired with its group of series records. -/
structure Entry where
  t : Int
  bulk : List SRec
deriving DecidableEq, Repr

/-- Insertion-ordered dictionary update: replace the value at the first
occurrence of the key, else append, exactly as a Python dict assignment
behaves. -/
def upsert : List (String × SRec) → String → SRec → List (String × SRec)
  | [], k, r => [(k, r)]
  | (k2, r2) :: m, k, r =>
    if k2 == k then (k2, r) :: m else (k2, r2) :: upsert m k r

/-- Build up a dictionary keyed by the a tag from a list of records, in
order, mirroring the dict comprehension and the assignment loop in
merge_bulk_data. -/
def dictAdd (m : List (String × SRec)) (rs : List SRec) : List (String × SRec) :=
  rs.foldl (fun acc r => upsert acc r.a r) m

/-- Merge the bulk groups of two entries sharing a TimePoint: a dict keyed
by the a tag is built from the existing group, every incoming record is
assigned into it under its a tag, and the values are read back in
insertion order (merge_bulk_data, inner loop). -/
def mergeBulk (ex inc : List SRec) : List SRec :=
  (dictAdd (dictAdd [] ex) inc).map Prod.snd

/-- Replace, among the entries carrying TimePoint t0, the last one by its
merge with the incoming group.  The Python time_map dict maps each
timestamp to the last list item carrying it, and the merge mutates that
item in place. -/
def updateLast : List Entry → Int → List SRec → List Entry
  | [], _, _ => []
  | e :: rest, t0, inc =>
    if rest.any (fun e2 => e2.t == t0) then e :: updateLast rest t0 inc
    else if e.t == t0 then { e with bulk := mergeBulk e.bulk inc } :: rest
    else e :: rest

/-- One step of the stitching loop over an incoming chunk: an item whose
TimePoint already occurs in the accumulator is merged into the entry the
time map designates, otherwise it is queued as a new item. -/
def mergeStep (acc : List Entry × List Entry) (item : Entry) : List Entry × List Entry :=
  if acc.1.any (fun e => e.t == item.t) then
    (updateLast acc.1 item.t item.bulk, acc.2)
  else
    (acc.1, acc.2 ++ [item])

/-- Embedding of merge_bulk_data (utils.py): an empty accumulator returns
the chunk as is; otherwise each incoming item is merged or queued, and the
queued new items are appended (forward) or prepended as a block
(backward). -/
def merge_bulk_data (combined chunk : List Entry) (dir : PagDir) : List Entry :=
  if combined.isEmpty then chunk
  else
    let p := chunk.foldl mergeStep (combined, [])
    match dir with
    | .forward => p.1 ++ p.2
    | .backward => p.2 ++ p.1

/-- One decoded page payload: the non-data key/value pairs (the metadata
side channel, values abstracted to Int) and the optional data sequence.  A
payload that is a missing or empty dict is the value with no data and no
metadata. -/
structure Chunk where
  meta : List (String × Int)
  data : Option (List Entry)
deriving DecidableEq, Repr

/-- Emptiness test of the paginator: a chunk is empty when the payload is
falsy, lacks a data key, or its data list is empty. -/
def isEmptyChunk (c : Chunk) : Bool :=
  match c.data with
  | some (_ :: _) => false
  | _ => true

/-- State of the pagination while loop: the current window bounds, the
consecutive-empty counter, the captured metadata, the stitched data, and
the instrumentation log of windows requested so far. -/
structure PState where
  since : Int
  untilT : Int
  emptyCount : Nat
  meta : List (String × Int)
  data : List Entry
  reqs : List (Int × Int)
deriving DecidableEq, Repr

/-- Advance of the pagination window, returning none when the loop breaks
on range exhaustion: forward stops once the window reached the target
until, backward stops once the since just used is at or below zero. -/
def nextWin (dir : PagDir) (w tgt : Int) (wn : Int × Int) : Option (Int × Int) :=
  match dir with
  | .forward => if wn.2 ≥ tgt then none else some (wn.2 + 1, min (wn.2 + 1 + w) tgt)
  | .backward => if wn.1 ≤ 0 then none else some (max (wn.1 - 1 - w) 0, wn.1 - 1)

/-- Page source oracle: request ordinal, window since, window until.  An
error value models a transport or decode failure of that request. -/
def PageSrc : Type := Nat → Int → Int → Except Unit Chunk

/-- Embedding of the while loop of the paginated bulk fetch
(glassnode_client.py).  Each iteration requests the current window,
terminates on two consecutive empty pages or on a request failure, copies
the metadata of the first chunk that carries any, stitches non-empty data
through merge_bulk_data, and advances the window or terminates on range
exhaustion.  The fuel argument only bounds the number of iterations. -/
def pagLoop (src : PageSrc) (dir : PagDir) (w tgt : Int) : Nat → PState → PState
  | 0, st => st
  | fuel + 1, st =>
    let st1 : PState := { st with reqs := st.reqs ++ [(st.since, st.untilT)] }
    match src st.reqs.length st.since st.untilT with
    | .error _ => st1
    | .ok chunk =>
      if isEmptyChunk chunk then
        let st2 : PState := { st1 with emptyCount := st1.emptyCount + 1 }
        if st2.emptyCount ≥ 2 then st2
        else
          match nextWin dir w tgt (st2.since, st2.untilT) with
          | none => st2
          | some wn => pagLoop src dir w tgt fuel { st2 with since := wn.1, untilT := wn.2 }
      else
        let meta2 := if st1.meta.isEmpty then chunk.meta else st1.meta
        let data2 := merge_bulk_data st1.data (chunk.data.getD []) dir
        let st2 : PState := { st1 with emptyCount := 0, meta := meta2, data := data2 }
        match nextWin dir w tgt (st2.since, st2.untilT) with
        | none => st2
        | some wn => pagLoop src dir w tgt fuel { st2 with since := wn.1, untilT := wn.2 }

/-- BULK_MAX_DAYS lookup table of the client; an unknown resolution is a
KeyError, embedded as none. -/
def BULK_MAX_DAYS (interval : String) : Option Nat :=
  if interval = "10m" then some 10
  else if interval = "1h" then some 10
  else if interval = "24h" then some 31
  else if interval = "1w" then some 93
  else if interval = "1month" then some 93
  else none

/-- Window size in seconds for a given max-days entry. -/
def wSec (d : Nat) : Int := (d : Int) * 24 * 60 * 60

/-- Direction chosen by the fetch: forward when since is provided. -/
def fetchDir (sinceOpt : Option Int) : PagDir :=
  match sinceOpt with
  | some _ => .forward
  | none => .backward

/-- Initial window of the fetch: forward starts at since and caps the
window at until; backward anchors at until and reaches back one window,
without clamping at zero. -/
def initWin (sinceOpt : Option Int) (untilTs w : Int) : Int × Int :=
  match sinceOpt with
  | some s => (s, min (s + w) untilTs)
  | none => (untilTs - w, untilTs)

/-- Result of a paginated fetch: captured metadata, stitched data, and the
log of requested windows. -/
structure FetchResult where
  meta : List (String × Int)
  data : List Entry
  reqs : List (Int × Int)
deriving DecidableEq, Repr

/-- Embedding of the paginated bulk fetch helper of the client.  The
BULK_MAX_DAYS lookup happens before any request; an unknown resolution is
a KeyError, embedded as none. -/
def paginated_bulk_fetch (src : PageSrc) (sinceOpt : Option Int) (untilTs : Int)
    (interval : String) (fuel : Nat) : Option FetchResult :=
  match BULK_MAX_DAYS interval with
  | none => none
  | some d =>
    let w := wSec d
    let wn := initWin sinceOpt untilTs w
    let st := pagLoop src (fetchDir sinceOpt) w untilTs fuel
      { since := wn.1, untilT := wn.2, emptyCount := 0, meta := [], data := [], reqs := [] }
    some { meta := st.meta, data := st.data, reqs := st.reqs }

/-- Iterated window advance, used to phrase that the requested range is
not exhausted for a given number of steps. -/
def iterWin (dir : PagDir) (w tgt : Int) : Nat → Int × Int → Option (Int × Int)
  | 0, wn => some wn
  | k + 1, wn =>
    match nextWin dir w tgt wn with
    | none => none
    | some wn2 => iterWin dir w tgt k wn2

/-- Window sequence of a backward fetch as the code runs it: emit the
current window, stop when its since is at or below zero, otherwise recurse
on the advanced window.  Fuel mirrors the fuel of pagLoop. -/
def codeBackWins (w : Int) : Nat → Int × Int → List (Int × Int)
  | 0, _ => []
  | fuel + 1, wn =>
    wn :: (if wn.1 ≤ 0 then [] else codeBackWins w fuel (max (wn.1 - 1 - w) 0, wn.1 - 1))

/-- Modelled from the spec claim wording for C4, literal reading: the
window sequence that stops, without issuing a further request, as soon as
the advanced since would be at or below zero. -/
def claimBackWins (w : Int) : Nat → Int × Int → List (Int × Int)
  | 0, wn => [wn]
  | fuel + 1, wn =>
    if max (wn.1 - 1 - w) 0 ≤ 0 then [wn]
    else wn :: claimBackWins w fuel (max (wn.1 - 1 - w) 0, wn.1 - 1)

/-- Raw item inside a bulk group as received from the wire: either a dict,
given by its non-v fields (values stringified) and its optional v value,
or something that is not a dict. -/
inductive RawItem where
  | recd (fields : List (String × String)) (v : Option Int)
  | nondict
deriving DecidableEq, Repr

/-- Raw value of the bulk key of an entry: a list of items, or not a list. -/
inductive RawBulk where
  | items (xs : List RawItem)
  | notList
deriving DecidableEq, Repr

/-- Raw element of the data sequence: a dict with t and bulk keys, or a
malformed element (not a dict, or missing one of the two keys). -/
inductive RawEntry where
  | entry (t : Int) (bulk : RawBulk)
  | malformed
deriving DecidableEq, Repr

/-- Flat record produced by the flattening step: TimePoint, optional
asset, derived series key, value. -/
structure FlatRec where
  t : Int
  asset : Option String
  mkey : String
  value : Int
deriving DecidableEq, Repr

/-- Result of flattening: the flat record list plus the sets of assets and
series keys seen, kept as insertion-ordered duplicate-free lists. -/
structure FlatOut where
  flat : List FlatRec
  assets : List (Option String)
  mkeys : List String
deriving DecidableEq, Repr

/-- First value bound to a key in an association list, as a Python dict
lookup. -/
def lookupStr (fields : List (String × String)) (k : String) : Option String :=
  (fields.find? (fun p => p.1 == k)).map Prod.snd

/-- Code-point comparison of character lists, the ordering Python uses on
strings. -/
def charsLe : List Char → List Char → Bool
  | [], _ => true
  | _ :: _, [] => false
  | c :: cs, d :: ds =>
    if c.toNat < d.toNat then true
    else if d.toNat < c.toNat then false
    else charsLe cs ds

/-- Code-point string ordering. -/
def strLe (a b : String) : Bool := charsLe a.toList b.toList

/-- Stable insertion into a sorted list, used to embed the sorted builtin. -/
def insertSorted (le : α → α → Bool) (x : α) : List α → List α
  | [] => [x]
  | y :: ys => if le x y then x :: y :: ys else y :: insertSorted le x ys

/-- Ascending sort of strings, matching the sorted builtin on the ASCII
keys the source sorts. -/
def sortStrs (xs : List String) : List String :=
  xs.foldr (insertSorted strLe) []

/-- Ascending sort of integers. -/
def sortInts (xs : List Int) : List Int :=
  xs.foldr (insertSorted (fun a b => decide (a ≤ b))) []

/-- Set insertion keeping first-arrival order. -/
def insertUniq [BEq α] (xs : List α) (x : α) : List α :=
  if xs.contains x then xs else xs ++ [x]

/-- Duplicate removal keeping the first occurrence of each element. -/
def uniqList [BEq α] (xs : List α) : List α :=
  xs.foldl insertUniq []

/-- Series key derivation of the flattening step: the non-a identifier
pairs sorted by key and rendered key underscore value, joined by
underscores; an empty identifier set falls back to the asset string when
the asset is truthy and to the literal value otherwise. -/
def metricKeyOf (asset : Option String) (rest : List (String × String)) : String :=
  let parts := (sortStrs (rest.map Prod.fst)).map
    (fun k => k ++ "_" ++ ((lookupStr rest k).getD ""))
  if parts.isEmpty then
    match asset with
    | some s => if s = "" then "value" else s
    | none => "value"
  else String.intercalate "_" parts

/-- Flattening of one bulk item at a timestamp: items that are not dicts
or lack a v key are skipped; otherwise the a tag is popped from the
identifiers, the series key derived, and a flat record appended. -/
def flattenItem (t : Int) (acc : FlatOut) (it : RawItem) : FlatOut :=
  match it with
  | .nondict => acc
  | .recd fields vOpt =>
    match vOpt with
    | none => acc
    | some v =>
      let asset := lookupStr fields "a"
      let rest := fields.filter (fun p => p.1 != "a")
      let mk := metricKeyOf asset rest
      { flat := acc.flat ++ [⟨t, asset, mk, v⟩],
        assets := insertUniq acc.assets asset,
        mkeys := insertUniq acc.mkeys mk }

/-- Flattening of one data element: malformed elements and non-list bulk
values are skipped with a warning. -/
def flattenEntry (acc : FlatOut) (e : RawEntry) : FlatOut :=
  match e with
  | .malformed => acc
  | .entry t b =>
    match b with
    | .notList => acc
    | .items xs => xs.foldl (flattenItem t) acc

/-- Embedding of flatten_bulk_response (utils.py). -/
def flatten_bulk_response (dataList : List RawEntry) : FlatOut :=
  dataList.foldl flattenEntry { flat := [], assets := [], mkeys := [] }

/-- Rectangular table: ascending unique index of TimePoints, column
labels, and row-major cells where none is the missing-value marker. -/
structure Table where
  index : List Int
  cols : List String
  cells : List (List (Option Rat))
deriving DecidableEq, Repr

/-- Aggregation of a pivot cell: the exact rational mean of the matching
values, none when no row matches. -/
def meanOf (vs : List Int) : Option Rat :=
  match vs with
  | [] => none
  | _ => some (mkRat vs.sum vs.length)

/-- Ascending duplicate-free index from a list of timestamps, as a pivot
builds its index. -/
def sortedUniqueInts (xs : List Int) : List Int :=
  sortInts (uniqList xs)

/-- String form of an optional asset, with the literal None label for the
missing asset. -/
def assetStr : Option String → String
  | some s => s
  | none => "None"

/-- Column label of the wide layout: the series key alone when the asset
is missing or when the series key already equals the asset string,
otherwise asset underscore series key. -/
def wideColName (r : FlatRec) : String :=
  match r.asset with
  | none => r.mkey
  | some s => if r.mkey = s then s else s ++ "_" ++ r.mkey

/-- Pivot of the wide layout: index the distinct timestamps ascending, one
column per distinct derived wide label sorted ascending, cells aggregated
by mean. -/
def wideTable (fo : FlatOut) : Table :=
  let cols := sortStrs (uniqList (fo.flat.map wideColName))
  let idx := sortedUniqueInts (fo.flat.map FlatRec.t)
  let cells := idx.map (fun t => cols.map (fun c =>
    meanOf ((fo.flat.filter (fun r => r.t == t && wideColName r == c)).map FlatRec.value)))
  { index := idx, cols := cols, cells := cells }

/-- Pivot of the dict-by-asset layout: one group per distinct asset string
in ascending label order, each pivoted over its own timestamps and
reindexed to the sorted global series-key set; the dictionary key is the
first original asset whose string form matches the group label. -/
def dictByAsset (fo : FlatOut) : List (Option String × Table) :=
  let labels := sortStrs (uniqList (fo.flat.map (fun r => assetStr r.asset)))
  let sortedKeys := sortStrs fo.mkeys
  labels.map (fun lb =>
    let grp := fo.flat.filter (fun r => assetStr r.asset == lb)
    let key := (fo.assets.find? (fun a => assetStr a == lb)).getD (some lb)
    let idx := sortedUniqueInts (grp.map FlatRec.t)
    let cells := idx.map (fun t => sortedKeys.map (fun k =>
      meanOf ((grp.filter (fun r => r.t == t && r.mkey == k)).map FlatRec.value)))
    (key, { index := idx, cols := sortedKeys, cells := cells }))

/-- Pivot of the dict-by-metric layout: one group per distinct series key
in ascending order, each pivoted over its own timestamps with one column
per asset string, reindexed to the sorted global asset labels.  Rows with
a missing asset are dropped by the pivot, as a pivot drops null group
keys, and the None column is then reinstated empty by the reindex. -/
def dictByMetric (fo : FlatOut) : List (String × Table) :=
  let mks := sortStrs (uniqList (fo.flat.map FlatRec.mkey))
  let assetCols := sortStrs (fo.assets.map assetStr)
  mks.map (fun mk =>
    let grp := fo.flat.filter (fun r => r.mkey == mk)
    let grpP := grp.filter (fun r => r.asset.isSome)
    let idx := sortedUniqueInts (grpP.map FlatRec.t)
    let cells := idx.map (fun t => assetCols.map (fun c =>
      meanOf ((grpP.filter (fun r => r.t == t && assetStr r.asset == c)).map FlatRec.value)))
    (mk, { index := idx, cols := assetCols, cells := cells }))

/-- Data key of a bulk payload dict: absent, null, present but not a
list, or a list of raw entries. -/
inductive DataField where
  | absent
  | nullv
  | notList
  | list (xs : List RawEntry)
deriving DecidableEq, Repr

/-- Bulk payload: not a dict, or a dict abstracted to its data key. -/
inductive BulkInput where
  | nondict
  | dict (data : DataField)
deriving DecidableEq, Repr

/-- Output of the bulk conversion under one of the three layouts. -/
inductive BulkOut where
  | wideT (t : Table)
  | byAsset (m : List (Option String × Table))
  | byMetric (m : List (String × Table))
deriving DecidableEq, Repr

/-- Empty output of a layout: an empty table for wide, an empty mapping
for the two dict layouts. -/
def emptyBulkOut (outputStructure : String) : BulkOut :=
  if outputStructure = "wide" then .wideT { index := [], cols := [], cells := [] }
  else if outputStructure = "dict_by_asset" then .byAsset []
  else .byMetric []

/-- Embedding of convert_bulk_to_dataframe (utils.py): layout validation,
then payload validation, then the early empty returns, then flattening
and the layout pivot. -/
def convert_bulk_to_dataframe (inp : BulkInput) (outputStructure : String) :
    Except String BulkOut :=
  if outputStructure ≠ "wide" ∧ outputStructure ≠ "dict_by_asset" ∧
      outputStructure ≠ "dict_by_metric" then
    .error "Invalid output_structure"
  else
    match inp with
    | .nondict => .error "Input must be a dictionary with a data key containing the bulk list."
    | .dict df =>
      match df with
      | .absent => .error "Input must be a dictionary with a data key containing the bulk list."
      | .notList => .error "The data key must contain a list."
      | .nullv => .ok (emptyBulkOut outputStructure)
      | .list xs =>
        if xs.isEmpty then .ok (emptyBulkOut outputStructure)
        else
          let fo := flatten_bulk_response xs
          if fo.flat.isEmpty then .ok (emptyBulkOut outputStructure)
          else if outputStructure = "wide" then .ok (.wideT (wideTable fo))
          else if outputStructure = "dict_by_asset" then .ok (.byAsset (dictByAsset fo))
          else .ok (.byMetric (dictByMetric fo))

/-- Value of the o key of a single-series item: a mapping, or not a dict. -/
inductive OVal where
  | omap (kvs : List (String × Int))
  | nondict
deriving DecidableEq, Repr

/-- Element of a structured single-series response: a dict abstracted to
its optional t, v and o keys, or not a dict at all. -/
inductive JItem where
  | dict (tOpt : Option Int) (vOpt : Option Int) (oOpt : Option OVal)
  | nondict
deriving DecidableEq, Repr

/-- Result of the single-series conversion: the empty table, a standard
one-column table named from the path, or a nested table whose rows carry
the o mappings. -/
inductive SingleOut where
  | empty
  | standard (col : String) (rows : List (Option Int × Int))
  | nested (recs : List (Int × List (String × Int)))
deriving DecidableEq, Repr

/-- Column name derived from the metric path: last segment of the path
stripped of surrounding slashes when the path contains a slash, the
literal value otherwise. -/
def get_column_name_from_path (path : String) : String :=
  if path.contains '/' then
    let stripped := String.mk (((path.toList.dropWhile (· = '/')).reverse.dropWhile (· = '/')).reverse)
    (stripped.splitOn "/").getLastD "value"
  else "value"

/-- Keep test of the nested converter: an element is kept when it is a
dict with a t key and an o key holding a mapping. -/
def nestedKeep (it : JItem) : Option (Int × List (String × Int)) :=
  match it with
  | .dict (some t) _ (some (.omap kvs)) => some (t, kvs)
  | _ => none

/-- Embedding of dataframe_from_json_nested (utils.py): elements failing
the shape test are skipped with a warning; when nothing is kept the empty
table is returned. -/
def dataframe_from_json_nested (items : List JItem) : SingleOut :=
  let recs := items.filterMap nestedKeep
  if recs.isEmpty then .empty else .nested recs

/-- Embedding of dataframe_from_json_standard (utils.py): a non-dict
element fails the table construction, an element without a v key fails the
consistency check; otherwise one value column named from the path. -/
def dataframe_from_json_standard (items : List JItem) (path : String) :
    Except String SingleOut :=
  if items.any (fun it => match it with | .nondict => true | _ => false) then
    .error "Failed to convert standard JSON to DataFrame"
  else if items.any (fun it => match it with | .dict _ none _ => true | _ => false) then
    .error "Inconsistent JSON format: some items missing v key."
  else
    .ok (.standard (get_column_name_from_path path)
      (items.filterMap (fun it =>
        match it with
        | .dict tOpt (some v) _ => some (tOpt, v)
        | .dict _ none _ => none
        | .nondict => none)))

/-- Embedding of dataframe_from_json (utils.py): empty input gives the
empty table; the format branch is chosen from the first element alone: it
must be a dict with a t key, then a v key selects the standard converter,
else an o key holding a mapping selects the nested converter, and
anything else is a format error. -/
def dataframe_from_json (items : List JItem) (path : String) : Except String SingleOut :=
  match items with
  | [] => .ok .empty
  | first :: _ =>
    match first with
    | .nondict => .error "JSON list items must be dictionaries with a t timestamp key."
    | .dict none _ _ => .error "JSON list items must be dictionaries with a t timestamp key."
    | .dict (some _) vOpt oOpt =>
      match vOpt with
      | some _ => dataframe_from_json_standard items path
      | none =>
        match oOpt with
        | some (.omap _) => .ok (dataframe_from_json_nested items)
        | _ => .error "JSON data does not match expected formats"

/-! Lemmas about the per-timestamp dictionary merge. -/

lemma find_upsert (m : List (String × SRec)) (k : String) (r : SRec) (x : String) :
    (upsert m k r).find? (fun p => p.1 == x) =
      if x = k then some (k, r) else m.find? (fun p => p.1 == x) := by
  induction m with
  | nil =>
    by_cases h : x = k
    · subst h; simp [upsert, List.find?]
    · have hb : (k == x) = false := by simp [Ne.symm h]
      simp [upsert, List.find?, h, hb]
  | cons p m ih =>
    obtain ⟨k2, r2⟩ := p
    by_cases hk : k2 = k
    · subst hk
      by_cases hx : x = k2
      · subst hx; simp [upsert, List.find?]
      · have hb : (k2 == x) = false := by simp [Ne.symm hx]
        simp [upsert, List.find?, hx, hb]
    · have hbk : (k2 == k) = false := by simp [hk]
      by_cases hx : x = k2
      · subst hx
        simp [upsert, hbk, List.find?, hk]
      · have hb : (k2 == x) = false := by simp [Ne.symm hx]
        simp [upsert, hbk, List.find?, hb, ih]


lemma find_dictAdd (rs : List SRec) :
    ∀ (m : List (String × SRec)) (x : String),
    (dictAdd m rs).find? (fun p => p.1 == x) =
      match rs.reverse.find? (fun r => r.a == x) with
      | some r => some (x, r)
      | none => m.find? (fun p => p.1 == x) := by
  induction rs with
  | nil => intro m x; simp [dictAdd]
  | cons r rest ih =>
    intro m x
    have h1 : dictAdd m (r :: rest) = dictAdd (upsert m r.a r) rest := rfl
    rw [h1, ih, List.reverse_cons, List.find?_append, find_upsert]
    cases hr : rest.reverse.find? (fun q => q.a == x) with
    | some q => simp
    | none =>
      by_cases hx : x = r.a
      · subst hx
        simp [List.find?]
      · have hb : (r.a == x) = false := by simp [Ne.symm hx]
        simp [List.find?, hb, hx]


def wfDict (m : List (String × SRec)) : Prop := ∀ p ∈ m, (Prod.snd p).a = p.1

lemma wfDict_upsert {m : List (String × SRec)} {k : String} {r : SRec}
    (hm : wfDict m) (hr : r.a = k) : wfDict (upsert m k r) := by
  induction m with
  | nil =>
    intro p hp
    simp [upsert] at hp
    subst hp
    exact hr
  | cons q m ih =>
    intro p hp
    by_cases h : q.1 = k
    · have hb : (q.1 == k) = true := by simp [h]
      simp only [upsert] at hp
      rw [if_pos hb] at hp
      rcases List.mem_cons.mp hp with h2 | h2
      · subst h2; simpa [h] using hr
      · exact hm p (List.mem_cons_of_mem _ h2)
    · have hb : (q.1 == k) = false := by simp [h]
      simp only [upsert] at hp
      rw [if_neg (by simp [hb])] at hp
      rcases List.mem_cons.mp hp with h2 | h2
      · subst h2; exact hm q (List.mem_cons_self _ _)
      · exact ih (fun q2 hq2 => hm q2 (List.mem_cons_of_mem _ hq2)) p h2

lemma wfDict_dictAdd (rs : List SRec) :
    ∀ m, wfDict m → wfDict (dictAdd m rs) := by
  induction rs with
  | nil => intro m hm; exact hm
  | cons r rest ih => intro m hm; exact ih _ (wfDict_upsert hm rfl)


lemma mem_keys_upsert {m : List (String × SRec)} {k x : String} {r : SRec}
    (h : x ∈ (upsert m k r).map Prod.fst) : x ∈ m.map Prod.fst ∨ x = k := by
  induction m with
  | nil =>
    simp [upsert] at h
    exact Or.inr h
  | cons q m ih =>
    simp only [upsert] at h
    by_cases hb : (q.1 == k) = true
    · rw [if_pos hb] at h
      simp only [List.map_cons, List.mem_cons] at h
      rcases h with h | h
      · exact Or.inl (by simp [h])
      · exact Or.inl (List.mem_cons_of_mem _ h)
    · rw [if_neg hb] at h
      simp only [List.map_cons, List.mem_cons] at h
      rcases h with h | h
      · exact Or.inl (by simp [h])
      · rcases ih (by simpa using h) with h2 | h2
        · exact Or.inl (List.mem_cons_of_mem _ h2)
        · exact Or.inr h2

lemma nodup_keys_upsert {m : List (String × SRec)} {k : String} {r : SRec}
    (h : (m.map Prod.fst).Nodup) : ((upsert m k r).map Prod.fst).Nodup := by
  induction m with
  | nil => simp [upsert]
  | cons q m ih =>
    simp only [List.map_cons, List.nodup_cons] at h
    simp only [upsert]
    by_cases hb : (q.1 == k) = true
    · rw [if_pos hb]
      simp only [List.map_cons, List.nodup_cons]
      exact ⟨h.1, h.2⟩
    · rw [if_neg hb]
      simp only [List.map_cons, List.nodup_cons]
      refine ⟨fun hmem => ?_, ih h.2⟩
      rcases mem_keys_upsert hmem with h2 | h2
      · exact h.1 h2
      · exact hb (by simp [h2])

lemma nodup_keys_dictAdd (rs : List SRec) :
    ∀ m, (m.map Prod.fst).Nodup → ((dictAdd m rs).map Prod.fst).Nodup := by
  induction rs with
  | nil => intro m hm; exact hm
  | cons r rest ih => intro m hm; exact ih _ (nodup_keys_upsert hm)

lemma filter_key_len_le_one (m : List (String × SRec)) (k : String)
    (h : (m.map Prod.fst).Nodup) :
    (m.filter (fun p => p.1 == k)).length ≤ 1 := by
  induction m with
  | nil => simp
  | cons q m ih =>
    simp only [List.map_cons, List.nodup_cons] at h
    by_cases hq : (q.1 == k) = true
    · have hnil : m.filter (fun p => p.1 == k) = [] := by
        rw [List.filter_eq_nil_iff]
        intro p hp hc
        have h1 : q.1 = k := by simpa using hq
        have h2 : p.1 = k := by simpa using hc
        exact h.1 (by rw [show q.1 = p.1 from h1.trans h2.symm]; exact List.mem_map_of_mem Prod.fst hp)
      simp [List.filter_cons, hq, hnil]
    · simp only [List.filter_cons, hq, if_neg]
      exact ih h.2


lemma find?_congr_mem {α : Type} {l : List α} {p q : α → Bool} (h : ∀ x ∈ l, p x = q x) :
    l.find? p = l.find? q := by
  induction l with
  | nil => rfl
  | cons a l ih =>
    simp only [List.find?]
    rw [h a (List.mem_cons_self _ _)]
    cases hq : q a with
    | true => rfl
    | false => exact ih (fun x hx => h x (List.mem_cons_of_mem _ hx))


theorem merge_overwrites_by_asset_tag (ex inc : List SRec) (k : String) :
    ((mergeBulk ex inc).filter (fun r => r.a == k)).length ≤ 1 ∧
    (mergeBulk ex inc).find? (fun r => r.a == k) =
      match inc.reverse.find? (fun r => r.a == k) with
      | some r => some r
      | none => ex.reverse.find? (fun r => r.a == k) := by
  have hwf : wfDict (dictAdd (dictAdd [] ex) inc) :=
    wfDict_dictAdd inc _ (wfDict_dictAdd ex [] (by intro p hp; simp at hp))
  have hnd : ((dictAdd (dictAdd [] ex) inc).map Prod.fst).Nodup :=
    nodup_keys_dictAdd inc _ (nodup_keys_dictAdd ex [] (by simp))
  have hcong : ∀ p ∈ dictAdd (dictAdd [] ex) inc,
      ((fun r => r.a == k) ∘ Prod.snd) p = (fun q => q.1 == k) p := by
    intro p hp
    simp only [Function.comp]
    rw [hwf p hp]
  constructor
  · have h1 : (mergeBulk ex inc).filter (fun r => r.a == k) =
        ((dictAdd (dictAdd [] ex) inc).filter (fun q => q.1 == k)).map Prod.snd := by
      rw [mergeBulk, List.filter_map, List.filter_congr hcong]
    rw [h1, List.length_map]
    exact filter_key_len_le_one _ k hnd
  · rw [mergeBulk, List.find?_map, find?_congr_mem hcong, find_dictAdd]
    cases hi : inc.reverse.find? (fun r => r.a == k) with
    | some r => simp
    | none =>
      rw [find_dictAdd]
      cases he : ex.reverse.find? (fun r => r.a == k) with
      | some r => simp
      | none => simp [List.find?]


deriving instance DecidableEq for Except

def c1recA : SRec := { a := "BTC", tags := [("c", "usd")], v := 1 }

def c1recB : SRec := { a := "BTC", tags := [("c", "native")], v := 2 }

theorem merge_tagset_counterexample :
    merge_bulk_data [{ t := 100, bulk := [c1recA] }] [{ t := 100, bulk := [c1recB] }]
        PagDir.forward = [{ t := 100, bulk := [c1recB] }] ∧
    (("a", c1recA.a) :: c1recA.tags) ≠ (("a", c1recB.a) :: c1recB.tags) := by
  decide

theorem merge_into_empty_identity :
    (∀ (chunk : List Entry) (dir : PagDir), merge_bulk_data [] chunk dir = chunk) ∧
    (merge_bulk_data [] [{ t := 100, bulk := [] }, { t := 100, bulk := [] }]
        PagDir.forward).map Entry.t = [100, 100] := by
  exact ⟨fun chunk dir => rfl, rfl⟩

theorem bulk_max_days_table :
    (BULK_MAX_DAYS "10m" = some 10 ∧ wSec 10 = 864000) ∧
    (BULK_MAX_DAYS "1h" = some 10) ∧
    (BULK_MAX_DAYS "24h" = some 31 ∧ wSec 31 = 2678400) ∧
    (BULK_MAX_DAYS "1w" = some 93 ∧ wSec 93 = 8035200) ∧
    (BULK_MAX_DAYS "1month" = some 93) ∧
    (∀ interval : String,
      interval ≠ "10m" → interval ≠ "1h" → interval ≠ "24h" → interval ≠ "1w" →
      interval ≠ "1month" →
      BULK_MAX_DAYS interval = none ∧
      ∀ (src : PageSrc) (sinceOpt : Option Int) (untilTs : Int) (fuel : Nat),
        paginated_bulk_fetch src sinceOpt untilTs interval fuel = none) := by
  refine ⟨⟨rfl, by decide⟩, rfl, ⟨rfl, by decide⟩, ⟨rfl, by decide⟩, rfl, ?_⟩
  intro i h1 h2 h3 h4 h5
  have hb : BULK_MAX_DAYS i = none := by
    simp [BULK_MAX_DAYS, h1, h2, h3, h4, h5]
  exact ⟨hb, fun src so u f => by simp [paginated_bulk_fetch, hb]⟩

theorem bulk_max_days_table_witness :
    ("5m" ≠ "10m" ∧ "5m" ≠ "1h" ∧ "5m" ≠ "24h" ∧ "5m" ≠ "1w" ∧ "5m" ≠ "1month") ∧
    BULK_MAX_DAYS "5m" = none ∧
    paginated_bulk_fetch (fun _ _ _ => .error ()) none 100 "5m" 3 = none := by
  refine ⟨by decide, ?_, ?_⟩
  · exact (bulk_max_days_table.2.2.2.2.2 "5m" (by decide) (by decide) (by decide)
      (by decide) (by decide)).1
  · exact (bulk_max_days_table.2.2.2.2.2 "5m" (by decide) (by decide) (by decide)
      (by decide) (by decide)).2 _ _ _ _

theorem convert_bulk_missing_data_counterexample :
    convert_bulk_to_dataframe (.dict .absent) "wide" =
      .error "Input must be a dictionary with a data key containing the bulk list." ∧
    convert_bulk_to_dataframe (.dict .nullv) "wide" =
      .ok (.wideT { index := [], cols := [], cells := [] }) := by
  exact ⟨rfl, rfl⟩

theorem convert_bulk_validation (s : String)
    (hs : s = "wide" ∨ s = "dict_by_asset" ∨ s = "dict_by_metric") :
    convert_bulk_to_dataframe .nondict s =
      .error "Input must be a dictionary with a data key containing the bulk list." ∧
    convert_bulk_to_dataframe (.dict .absent) s =
      .error "Input must be a dictionary with a data key containing the bulk list." ∧
    convert_bulk_to_dataframe (.dict .notList) s =
      .error "The data key must contain a list." ∧
    convert_bulk_to_dataframe (.dict .nullv) s = .ok (emptyBulkOut s) ∧
    convert_bulk_to_dataframe (.dict (.list [])) s = .ok (emptyBulkOut s) := by
  rcases hs with h | h | h <;> subst h <;> exact ⟨rfl, rfl, rfl, rfl, rfl⟩

theorem convert_bulk_validation_witness :
    (("wide" : String) = "wide" ∨ ("wide" : String) = "dict_by_asset" ∨
      ("wide" : String) = "dict_by_metric") ∧
    convert_bulk_to_dataframe (.dict .nullv) "wide" = .ok (emptyBulkOut "wide") := by
  exact ⟨Or.inl rfl, (convert_bulk_validation "wide" (Or.inl rfl)).2.2.2.1⟩

def c7input : List RawEntry :=
  [ .entry 100 (.items [.recd [("a", "BTC")] (some 1), .recd [("a", "ETH")] (some 2)]),
    .entry 200 (.items [.recd [("a", "BTC")] (some 3)]) ]

def c7claimedBTC : Table := { index := [100, 200], cols := ["value"], cells := [[some 1], [some 3]] }

def c7claimedETH : Table := { index := [100, 200], cols := ["value"], cells := [[some 2], [none]] }

theorem bulk_by_asset_scenario_counterexample :
    convert_bulk_to_dataframe (.dict (.list c7input)) "dict_by_asset" ≠
      .ok (.byAsset [(some "BTC", c7claimedBTC), (some "ETH", c7claimedETH)]) := by
  decide

def c7actualBTC : Table := { index := [100, 200], cols := ["BTC", "ETH"], cells := [[some 1, none], [some 3, none]] }

def c7actualETH : Table := { index := [100], cols := ["BTC", "ETH"], cells := [[none, some 2]] }

theorem bulk_by_asset_scenario :
    convert_bulk_to_dataframe (.dict (.list c7input)) "dict_by_asset" =
      .ok (.byAsset [(some "BTC", c7actualBTC), (some "ETH", c7actualETH)]) := by
  decide

theorem pagination_error_aborts :
    (∀ (src : PageSrc) (dir : PagDir) (w tgt : Int) (fuel : Nat) (st : PState),
      src st.reqs.length st.since st.untilT = .error () →
      pagLoop src dir w tgt (fuel + 1) st =
        { st with reqs := st.reqs ++ [(st.since, st.untilT)] }) ∧
    (∀ (src : PageSrc) (sinceOpt : Option Int) (untilTs : Int) (interval : String)
        (d : Nat) (fuel : Nat),
      BULK_MAX_DAYS interval = some d →
      (paginated_bulk_fetch src sinceOpt untilTs interval fuel).isSome) := by
  constructor
  · intro src dir w tgt fuel st h
    simp [pagLoop, h]
  · intro src so u i d f h
    simp [paginated_bulk_fetch, h]

theorem pagination_error_aborts_witness :
    pagLoop (fun _ _ _ => .error ()) PagDir.forward 10 100 3
        { since := 0, untilT := 10, emptyCount := 0, meta := [], data := [], reqs := [] } =
      { since := 0, untilT := 10, emptyCount := 0, meta := [], data := [],
        reqs := [(0, 10)] } ∧
    (paginated_bulk_fetch (fun _ _ _ => .error ()) none 100 "24h" 3).isSome := by
  constructor
  · rw [pagination_error_aborts.1 (fun _ _ _ => .error ()) PagDir.forward 10 100 2 _ rfl]
    decide
  · exact pagination_error_aborts.2 (fun _ _ _ => .error ()) none 100 "24h" 31 3 rfl

def c4src : PageSrc := fun _ _ _ => .ok { meta := [], data := some [{ t := 50, bulk := [] }] }

theorem backward_stop_check_counterexample :
    (paginated_bulk_fetch c4src none 864003 "10m" 5).map FetchResult.reqs =
      some [(3, 864003), (0, 2)] ∧
    claimBackWins 864000 5 (864003 - 864000, 864003) = [(3, 864003)] ∧
    ([(3, 864003), (0, 2)] : List (Int × Int)) ≠ [(3, 864003)] := by
  refine ⟨by decide, by decide, by decide⟩

/-- Request log of the loop under a backward never-failing never-empty
source: exactly the code window sequence from the current window. -/
lemma pagLoop_reqs_backward (src : PageSrc) (w tgt : Int)
    (hsrc : ∀ k s u, ∃ ch, src k s u = .ok ch ∧ isEmptyChunk ch = false) :
    ∀ (fuel : Nat) (st : PState),
    (pagLoop src .backward w tgt fuel st).reqs =
      st.reqs ++ codeBackWins w fuel (st.since, st.untilT) := by
  intro fuel
  induction fuel with
  | zero => intro st; simp [pagLoop, codeBackWins]
  | succ f ih =>
    intro st
    obtain ⟨ch, hch, hne⟩ := hsrc st.reqs.length st.since st.untilT
    by_cases hle : st.since ≤ 0
    · simp only [pagLoop, hch, hne, nextWin, hle, Bool.false_eq_true, if_false, if_true,
        if_pos, codeBackWins]
    · simp only [pagLoop, hch, hne, nextWin, hle, Bool.false_eq_true, if_false,
        codeBackWins, ite_false]
      rw [ih]
      simp

theorem backward_windows (src : PageSrc) (untilTs : Int) (interval : String) (d : Nat)
    (fuel : Nat) (hd : BULK_MAX_DAYS interval = some d)
    (hsrc : ∀ k s u, ∃ ch, src k s u = .ok ch ∧ isEmptyChunk ch = false) :
    ∃ res, paginated_bulk_fetch src none untilTs interval fuel = some res ∧
      res.reqs = codeBackWins (wSec d) fuel (untilTs - wSec d, untilTs) := by
  refine ⟨_, by rw [paginated_bulk_fetch, hd], ?_⟩
  exact pagLoop_reqs_backward src (wSec d) untilTs hsrc fuel _

theorem backward_windows_witness :
    BULK_MAX_DAYS "10m" = some 10 ∧
    (∃ res, paginated_bulk_fetch c4src none 100 "10m" 3 = some res ∧
      res.reqs = codeBackWins (wSec 10) 3 (100 - wSec 10, 100)) := by
  refine ⟨rfl, backward_windows c4src 100 "10m" 10 3 rfl ?_⟩
  intro k s u
  exact ⟨_, rfl, rfl⟩

/-- Timestamps of the accumulator are untouched by updateLast. -/
lemma updateLast_map_t (l : List Entry) (t0 : Int) (inc : List SRec) :
    (updateLast l t0 inc).map Entry.t = l.map Entry.t := by
  induction l with
  | nil => rfl
  | cons e rest ih =>
    simp only [updateLast]
    by_cases h : rest.any (fun e2 => e2.t == t0)
    · simp [h, ih]
    · by_cases h2 : (e.t == t0) = true
      · simp [h, h2]
      · simp [h, h2]

/-- Presence of a timestamp depends only on the timestamp list. -/
lemma any_t_of_map (l : List Entry) (x : Int) :
    l.any (fun e => e.t == x) = (l.map Entry.t).any (fun y => y == x) := by
  induction l with
  | nil => rfl
  | cons e rest ih =>
    simp only [List.any_cons, List.map_cons]
    rw [ih]

/-- Characterization of the stitching fold: the accumulator keeps its
timestamp list, and the queued new items are exactly the incoming items
whose timestamp is absent from the accumulator, in incoming order. -/
lemma foldl_mergeStep (chunk : List Entry) :
    ∀ (comb ns : List Entry),
    (chunk.foldl mergeStep (comb, ns)).1.map Entry.t = comb.map Entry.t ∧
    (chunk.foldl mergeStep (comb, ns)).2 =
      ns ++ chunk.filter (fun it => !(comb.any (fun e => e.t == it.t))) := by
  induction chunk with
  | nil => intro comb ns; simp
  | cons item rest ih =>
    intro comb ns
    simp only [List.foldl_cons, mergeStep]
    by_cases h : comb.any (fun e => e.t == item.t)
    · simp only [h, if_true]
      have h1 := ih (updateLast comb item.t item.bulk) ns
      have hany : ∀ x : Int, (updateLast comb item.t item.bulk).any (fun e => e.t == x) =
          comb.any (fun e => e.t == x) := by
        intro x
        rw [any_t_of_map, updateLast_map_t, ← any_t_of_map]
      refine ⟨by rw [h1.1, updateLast_map_t], ?_⟩
      rw [h1.2, List.filter_cons]
      simp only [h, Bool.not_true, Bool.false_eq_true, if_neg, ite_false]
      congr 1
      exact List.filter_congr (fun it _ => by rw [hany])
    · simp only [h, Bool.false_eq_true, if_neg, ite_false]
      have h1 := ih comb (ns ++ [item])
      refine ⟨h1.1, ?_⟩
      rw [h1.2, List.filter_cons]
      have hb : (!(comb.any (fun e => e.t == item.t))) = true := by
        simp [h]
      simp [hb]

/-- Stitching preserves duplicate-freedom of the timestamps when the
incoming page has duplicate-free timestamps. -/
lemma merge_bulk_data_nodup (comb chunk : List Entry) (dir : PagDir)
    (h1 : (comb.map Entry.t).Nodup) (h2 : (chunk.map Entry.t).Nodup) :
    ((merge_bulk_data comb chunk dir).map Entry.t).Nodup := by
  by_cases hc : comb.isEmpty
  · simpa [merge_bulk_data, hc] using h2
  · have hchar := foldl_mergeStep chunk comb []
    have hnewsub : (chunk.foldl mergeStep (comb, [])).2.Sublist chunk := by
      rw [hchar.2]
      simp only [List.nil_append]
      exact List.filter_sublist chunk
    have hnewnd : ((chunk.foldl mergeStep (comb, [])).2.map Entry.t).Nodup :=
      (hnewsub.map Entry.t).nodup h2
    have hdisj : ∀ x, x ∈ (chunk.foldl mergeStep (comb, [])).1.map Entry.t →
        x ∈ (chunk.foldl mergeStep (comb, [])).2.map Entry.t → False := by
      intro x hx hy
      rw [hchar.1] at hx
      rw [hchar.2] at hy
      simp only [List.nil_append, List.mem_map] at hy
      obtain ⟨it, hit, hitx⟩ := hy
      have := List.of_mem_filter hit
      rw [Bool.not_eq_true', ← Bool.not_eq_true] at this
      apply this
      rw [any_t_of_map, List.any_eq_true]
      exact ⟨x, hx, by simp [hitx]⟩
    rw [merge_bulk_data, if_neg (by simpa using hc)]
    cases dir with
    | forward =>
      simp only [List.map_append, List.nodup_append]
      exact ⟨by rw [hchar.1]; exact h1, hnewnd, fun x hx hy => hdisj x hx hy⟩
    | backward =>
      simp only [List.map_append, List.nodup_append]
      exact ⟨hnewnd, by rw [hchar.1]; exact h1, fun x hx hy => hdisj x hy hx⟩

/-- Unfolding of the iterated window advance. -/
lemma iterWin_succ_isSome {dir : PagDir} {w tgt : Int} {k : Nat} {wn : Int × Int}
    (h : (iterWin dir w tgt (k + 1) wn).isSome) :
    ∃ wn2, nextWin dir w tgt wn = some wn2 ∧ (iterWin dir w tgt k wn2).isSome := by
  rw [iterWin] at h
  cases hn : nextWin dir w tgt wn with
  | none => rw [hn] at h; simp at h
  | some wn2 => rw [hn] at h; exact ⟨wn2, rfl, h⟩

/-- Two consecutive empty pages stop the loop after exactly two more
requests, leaving the stitched data untouched. -/
lemma pagLoop_empties (src : PageSrc) (dir : PagDir) (w tgt : Int) :
    ∀ (fuel : Nat) (st : PState), 2 ≤ fuel → st.emptyCount = 0 →
    (∀ k s u, st.reqs.length ≤ k → ∃ ch, src k s u = .ok ch ∧ isEmptyChunk ch = true) →
    (nextWin dir w tgt (st.since, st.untilT)).isSome →
    (pagLoop src dir w tgt fuel st).reqs.length = st.reqs.length + 2 ∧
    (pagLoop src dir w tgt fuel st).data = st.data := by
  intro fuel st hf hec hsrc hwin
  obtain ⟨f, rfl⟩ : ∃ f, fuel = f + 1 + 1 := ⟨fuel - 2, by omega⟩
  obtain ⟨ch1, hch1, he1⟩ := hsrc st.reqs.length st.since st.untilT le_rfl
  obtain ⟨wn, hwn⟩ := Option.isSome_iff_exists.mp hwin
  obtain ⟨ch2, hch2, he2⟩ := hsrc (st.reqs.length + 1) wn.1 wn.2 (by omega)
  have hlen : (st.reqs ++ [(st.since, st.untilT)]).length = st.reqs.length + 1 := by simp
  rw [pagLoop]
  simp only [hch1, he1, if_true, hec, hwn]
  have h12 : ¬ (0 + 1 ≥ 2) := by omega
  rw [if_neg h12]
  rw [pagLoop]
  simp only [hlen, hch2, he2, if_true]
  have h22 : 0 + 1 + 1 ≥ 2 := by omega
  rw [if_pos h22]
  constructor
  · simp
  · rfl

/-- Core counting argument: a source producing nonEmpty pages with
duplicate-free timestamps for the next N requests and empty pages after
that makes the loop issue exactly N plus two further requests, and
duplicate-freedom of the stitched timestamps is preserved. -/
lemma pagLoop_count (src : PageSrc) (dir : PagDir) (w tgt : Int) :
    ∀ (N : Nat) (fuel : Nat) (st : PState),
    N + 2 ≤ fuel → st.emptyCount = 0 →
    (∀ k s u, st.reqs.length ≤ k → k < st.reqs.length + N →
      ∃ ch, src k s u = .ok ch ∧ isEmptyChunk ch = false ∧
        ((ch.data.getD []).map Entry.t).Nodup) →
    (∀ k s u, st.reqs.length + N ≤ k → ∃ ch, src k s u = .ok ch ∧ isEmptyChunk ch = true) →
    (iterWin dir w tgt (N + 1) (st.since, st.untilT)).isSome →
    (st.data.map Entry.t).Nodup →
    (pagLoop src dir w tgt fuel st).reqs.length = st.reqs.length + (N + 2) ∧
    ((pagLoop src dir w tgt fuel st).data.map Entry.t).Nodup := by
  intro N
  induction N with
  | zero =>
    intro fuel st hf hec hne hemp hwin hnd
    obtain ⟨wn2, hwn2, _⟩ := iterWin_succ_isSome hwin
    have h := pagLoop_empties src dir w tgt fuel st hf hec
      (fun k s u hk => hemp k s u (by omega)) (by rw [hwn2]; rfl)
    exact ⟨h.1, by rw [h.2]; exact hnd⟩
  | succ N ih =>
    intro fuel st hf hec hne hemp hwin hnd
    obtain ⟨f, rfl⟩ : ∃ f, fuel = f + 1 := ⟨fuel - 1, by omega⟩
    obtain ⟨ch, hch, hcne, hchnd⟩ := hne st.reqs.length st.since st.untilT le_rfl (by omega)
    obtain ⟨wn, hwn, hiter⟩ := iterWin_succ_isSome hwin
    rw [pagLoop]
    simp only [hch, hcne, Bool.false_eq_true, if_false, ite_false, hwn]
    have hlen : (st.reqs ++ [(st.since, st.untilT)]).length = st.reqs.length + 1 := by simp
    have h := ih f
      { since := wn.1, untilT := wn.2, emptyCount := 0,
        meta := if st.meta.isEmpty then ch.meta else st.meta,
        data := merge_bulk_data st.data (ch.data.getD []) dir,
        reqs := st.reqs ++ [(st.since, st.untilT)] }
      (by omega) rfl
      (fun k s u hk1 hk2 => by
        simp only [List.length_append, List.length_cons, List.length_nil] at hk1 hk2
        exact hne k s u (by omega) (by omega))
      (fun k s u hk => by
        simp only [List.length_append, List.length_cons, List.length_nil] at hk
        exact hemp k s u (by omega))
      (by simpa using hiter)
      (merge_bulk_data_nodup st.data (ch.data.getD []) dir hnd hchnd)
    refine ⟨?_, h.2⟩
    rw [h.1]
    simp
    omega
def c2src : PageSrc := fun k _ _ =>
  if k = 0 then
    .ok { meta := [], data := some [{ t := 100, bulk := [] }, { t := 100, bulk := [] }] }
  else .ok { meta := [], data := none }

theorem pagination_dedup_counterexample :
    (paginated_bulk_fetch c2src none 10000000 "24h" 10).map
      (fun r => (r.reqs.length, r.data.map Entry.t)) = some (3, [100, 100]) ∧
    ¬ ([100, 100] : List Int).Nodup := by
  exact ⟨by decide, by decide⟩

theorem pagination_termination (N : Nat) (src : PageSrc) (sinceOpt : Option Int)
    (untilTs : Int) (interval : String) (d : Nat) (fuel : Nat)
    (hd : BULK_MAX_DAYS interval = some d)
    (hne : ∀ k s u, k < N → ∃ ch, src k s u = .ok ch ∧ isEmptyChunk ch = false ∧
        ((ch.data.getD []).map Entry.t).Nodup)
    (hemp : ∀ k s u, N ≤ k → ∃ ch, src k s u = .ok ch ∧ isEmptyChunk ch = true)
    (hwin : (iterWin (fetchDir sinceOpt) (wSec d) untilTs (N + 1)
        (initWin sinceOpt untilTs (wSec d))).isSome)
    (hf : N + 2 ≤ fuel) :
    ∃ res, paginated_bulk_fetch src sinceOpt untilTs interval fuel = some res ∧
      res.reqs.length = N + 2 ∧ (res.data.map Entry.t).Nodup := by
  have hcount := pagLoop_count src (fetchDir sinceOpt) (wSec d) untilTs N fuel
    { since := (initWin sinceOpt untilTs (wSec d)).1,
      untilT := (initWin sinceOpt untilTs (wSec d)).2,
      emptyCount := 0, meta := [], data := [], reqs := [] }
    hf rfl
    (fun k s u h0 hk => hne k s u (by simpa using hk))
    (fun k s u hk => hemp k s u (by simpa using hk))
    (by simpa using hwin) (by simp)
  simp only [paginated_bulk_fetch, hd]
  refine ⟨_, rfl, ?_, hcount.2⟩
  simpa using hcount.1

theorem pagination_termination_witness :
    ∃ res, paginated_bulk_fetch
        (fun k _ _ => if k = 0 then
            Except.ok { meta := [], data := some [{ t := 100, bulk := [] }] }
          else Except.ok ({ meta := [], data := none } : Chunk))
        none 10000000 "24h" 10 = some res ∧
      res.reqs.length = 1 + 2 ∧ (res.data.map Entry.t).Nodup := by
  apply pagination_termination 1 _ none 10000000 "24h" 31 10 rfl
  · intro k s u hk
    have hk0 : k = 0 := by omega
    subst hk0
    exact ⟨_, rfl, rfl, by decide⟩
  · intro k s u hk
    have hk0 : ¬ k = 0 := by omega
    refine ⟨{ meta := [], data := none }, ?_, rfl⟩
    simp [hk0]
  · decide
  · omega
/-- When no incoming timestamp collides, the fold leaves the accumulator
alone and queues the whole chunk in order. -/
lemma foldl_mergeStep_disjoint (chunk : List Entry) :
    ∀ (comb ns : List Entry),
    (∀ it ∈ chunk, comb.any (fun e => e.t == it.t) = false) →
    chunk.foldl mergeStep (comb, ns) = (comb, ns ++ chunk) := by
  induction chunk with
  | nil => intro comb ns h; simp
  | cons item rest ih =>
    intro comb ns h
    simp only [List.foldl_cons, mergeStep, h item (List.mem_cons_self _ _),
      Bool.false_eq_true, if_false, ite_false]
    rw [ih comb (ns ++ [item]) (fun it hit => h it (List.mem_cons_of_mem _ hit))]
    simp

/-- Backward stitching of a chunk of entirely new timestamps prepends the
chunk as a block, preserving its relative order. -/
lemma merge_bulk_data_backward_disjoint (comb chunk : List Entry)
    (h : ∀ it ∈ chunk, comb.any (fun e => e.t == it.t) = false) :
    merge_bulk_data comb chunk .backward = chunk ++ comb := by
  cases hc : comb.isEmpty with
  | true =>
    have hnil : comb = [] := by simpa using hc
    subst hnil
    simp [merge_bulk_data]
  | false =>
    rw [merge_bulk_data, if_neg (by simp [hc])]
    rw [foldl_mergeStep_disjoint chunk comb [] h]
    simp

/-- Order invariant of the backward loop: if every page is internally
strictly ascending and contained in its requested window, a strictly
ascending accumulator lying strictly above the current window stays
strictly ascending through the rest of the run. -/
lemma pagLoop_backward_sorted (src : PageSrc) (w tgt : Int) (hw : 0 ≤ w)
    (hsrc : ∀ k s u ch, src k s u = .ok ch → ∀ l, ch.data = some l →
        ((l.map Entry.t).Pairwise (· < ·) ∧ ∀ e ∈ l, s ≤ e.t ∧ e.t ≤ u)) :
    ∀ (fuel : Nat) (st : PState),
    st.since ≤ st.untilT →
    ((st.data.map Entry.t).Pairwise (· < ·)) →
    (∀ e ∈ st.data, st.untilT < e.t) →
    (((pagLoop src .backward w tgt fuel st).data.map Entry.t).Pairwise (· < ·)) := by
  intro fuel
  induction fuel with
  | zero => intro st hsu hp hgt; exact hp
  | succ f ih =>
    intro st hsu hp hgt
    rw [pagLoop]
    cases hch : src st.reqs.length st.since st.untilT with
    | error e => exact hp
    | ok ch =>
      by_cases hle : st.since ≤ 0
      · cases he : isEmptyChunk ch with
        | true =>
          simp only [he, if_true, nextWin, hle, ite_true]
          by_cases hec : st.emptyCount + 1 ≥ 2
          · rw [if_pos hec]; exact hp
          · rw [if_neg hec]; exact hp
        | false =>
          simp only [he, Bool.false_eq_true, if_false, ite_false, nextWin, hle, ite_true]
          obtain ⟨l, hl⟩ : ∃ l, ch.data = some l := by
            cases hd : ch.data with
            | none => rw [isEmptyChunk, hd] at he; simp at he
            | some l => exact ⟨l, rfl⟩
          obtain ⟨hpl, hin⟩ := hsrc st.reqs.length st.since st.untilT ch hch l hl
          have hdisj : ∀ it ∈ l, st.data.any (fun e => e.t == it.t) = false := by
            intro it hit
            rw [List.any_eq_false]
            intro e he2
            have h1 := hgt e he2
            have h2 := (hin it hit).2
            simp only [beq_iff_eq]
            omega
          rw [hl]
          simp only [Option.getD_some]
          rw [merge_bulk_data_backward_disjoint st.data l hdisj]
          rw [List.map_append, List.pairwise_append]
          refine ⟨hpl, hp, ?_⟩
          intro x hx y hy
          simp only [List.mem_map] at hx hy
          obtain ⟨ex, hex, rfl⟩ := hx
          obtain ⟨ey, hey, rfl⟩ := hy
          have h1 := (hin ex hex).2
          have h2 := hgt ey hey
          omega
      · cases he : isEmptyChunk ch with
        | true =>
          simp only [he, if_true, nextWin, hle, ite_false]
          by_cases hec : st.emptyCount + 1 ≥ 2
          · rw [if_pos hec]; exact hp
          · rw [if_neg hec]
            refine ih _ ?_ hp ?_
            · simp only []
              exact max_le (by omega) (by omega)
            · intro e he2
              have := hgt e he2
              simp only []
              omega
        | false =>
          simp only [he, Bool.false_eq_true, if_false, ite_false, nextWin, hle]
          obtain ⟨l, hl⟩ : ∃ l, ch.data = some l := by
            cases hd : ch.data with
            | none => rw [isEmptyChunk, hd] at he; simp at he
            | some l => exact ⟨l, rfl⟩
          obtain ⟨hpl, hin⟩ := hsrc st.reqs.length st.since st.untilT ch hch l hl
          have hdisj : ∀ it ∈ l, st.data.any (fun e => e.t == it.t) = false := by
            intro it hit
            rw [List.any_eq_false]
            intro e he2
            have h1 := hgt e he2
            have h2 := (hin it hit).2
            simp only [beq_iff_eq]
            omega
          have hmerge : merge_bulk_data st.data (ch.data.getD []) PagDir.backward =
              l ++ st.data := by
            rw [hl]
            simp only [Option.getD_some]
            exact merge_bulk_data_backward_disjoint st.data l hdisj
          have hpmerge : (((l ++ st.data).map Entry.t).Pairwise (· < ·)) := by
            rw [List.map_append, List.pairwise_append]
            refine ⟨hpl, hp, ?_⟩
            intro x hx y hy
            simp only [List.mem_map] at hx hy
            obtain ⟨ex, hex, rfl⟩ := hx
            obtain ⟨ey, hey, rfl⟩ := hy
            have h1 := (hin ex hex).2
            have h2 := hgt ey hey
            omega
          simp only [ite_false, hmerge]
          refine ih _ ?_ hpmerge ?_
          · simp only []
            exact max_le (by omega) (by omega)
          · intro e he2
            simp only [] at he2 ⊢
            rcases List.mem_append.mp he2 with h2 | h2
            · have := (hin e h2).1
              omega
            · have := hgt e h2
              omega
theorem backward_result_sorted (src : PageSrc) (untilTs : Int) (interval : String)
    (d : Nat) (fuel : Nat) (hd : BULK_MAX_DAYS interval = some d)
    (hsrc : ∀ k s u ch, src k s u = .ok ch → ∀ l, ch.data = some l →
        ((l.map Entry.t).Pairwise (· < ·) ∧ ∀ e ∈ l, s ≤ e.t ∧ e.t ≤ u)) :
    ∃ res, paginated_bulk_fetch src none untilTs interval fuel = some res ∧
      (res.data.map Entry.t).Pairwise (· < ·) ∧ (res.data.map Entry.t).Nodup := by
  have hw : (0:Int) ≤ wSec d := by
    rw [wSec]
    positivity
  have hs := pagLoop_backward_sorted src (wSec d) untilTs hw hsrc fuel
    { since := untilTs - wSec d, untilT := untilTs, emptyCount := 0, meta := [],
      data := [], reqs := [] }
    (by simp only []; omega) (by simp) (by simp)
  simp only [paginated_bulk_fetch, hd, fetchDir, initWin]
  refine ⟨_, rfl, hs, ?_⟩
  exact hs.imp (fun h => ne_of_lt h)

theorem backward_result_sorted_witness :
    ∃ res, paginated_bulk_fetch
        (fun _ _ _ => Except.ok ({ meta := [], data := some [] } : Chunk))
        none 1000 "24h" 5 = some res ∧
      (res.data.map Entry.t).Pairwise (· < ·) ∧ (res.data.map Entry.t).Nodup := by
  refine backward_result_sorted _ 1000 "24h" 31 5 rfl ?_
  intro k s u ch hch l hl
  have hch2 : ch = { meta := [], data := some [] } := by
    simp only [Except.ok.injEq] at hch
    exact hch.symm
  subst hch2
  simp only [Option.some.injEq] at hl
  subst hl
  exact ⟨by simp, by simp⟩
theorem single_series_format_branching (items : List JItem) (path : String)
    (first : JItem) (rest : List JItem) (hitems : items = first :: rest) :
    ((first = .nondict ∨ ∃ vOpt oOpt, first = .dict none vOpt oOpt) →
      ∃ msg, dataframe_from_json items path = .error msg) ∧
    (∀ t0 v0 oOpt, first = .dict (some t0) (some v0) oOpt →
      (∃ it ∈ items, it = .nondict ∨ ∃ tx ox, it = .dict tx none ox) →
      ∃ msg, dataframe_from_json items path = .error msg) ∧
    (∀ t0 kvs, first = .dict (some t0) none (some (.omap kvs)) →
      dataframe_from_json items path = .ok (dataframe_from_json_nested items)) ∧
    (∀ js : List JItem, (∀ it ∈ js, nestedKeep it = none) →
      dataframe_from_json_nested js = .empty) := by
  subst hitems
  refine ⟨?_, ?_, ?_, ?_⟩
  · intro h
    rcases h with h | ⟨vOpt, oOpt, h⟩ <;> subst h
    · exact ⟨_, rfl⟩
    · exact ⟨_, rfl⟩
  · intro t0 v0 oOpt hfirst hex
    subst hfirst
    show ∃ msg, dataframe_from_json_standard (JItem.dict (some t0) (some v0) oOpt :: rest)
      path = .error msg
    by_cases h1 : (JItem.dict (some t0) (some v0) oOpt :: rest).any
        (fun it => match it with | .nondict => true | _ => false)
    · rw [dataframe_from_json_standard, if_pos h1]
      exact ⟨_, rfl⟩
    · obtain ⟨it, hmem, hit⟩ := hex
      have h2 : (JItem.dict (some t0) (some v0) oOpt :: rest).any
          (fun it => match it with | .dict _ none _ => true | _ => false) = true := by
        rcases hit with hit | ⟨tx, ox, hit⟩
        · exact absurd (List.any_eq_true.mpr ⟨it, hmem, by rw [hit]⟩) h1
        · exact List.any_eq_true.mpr ⟨it, hmem, by rw [hit]⟩
      rw [dataframe_from_json_standard, if_neg h1, if_pos h2]
      exact ⟨_, rfl⟩
  · intro t0 kvs hfirst
    subst hfirst
    rfl
  · intro js hall
    rw [dataframe_from_json_nested]
    have hnil : js.filterMap nestedKeep = [] := List.filterMap_eq_nil_iff.mpr hall
    simp [hnil]

theorem single_series_format_branching_witness :
    dataframe_from_json
      [JItem.dict (some 100) none (some (.omap [("k", 1)])), JItem.nondict] "m/p" =
      .ok (.nested [(100, [("k", 1)])]) := by
  rw [(single_series_format_branching
    [JItem.dict (some 100) none (some (.omap [("k", 1)])), JItem.nondict] "m/p"
    (JItem.dict (some 100) none (some (.omap [("k", 1)]))) [JItem.nondict]
    rfl).2.2.1 100 [("k", 1)] rfl]
  decide
end Glassnode
